import Mathlib

/-!
A shallow embedding of the demographic-bias analysis core of
`src/backend/main.py` (the `upload_file` gender analysis and the
`analyze_age_distribution` age analysis), together with theorems settling
the specification claims about it.

Modelling conventions:
* Python strings are modelled as `List Char` (`PyStr`).
* A dataframe is a `Dataset`: an ordered list of column names plus rows of
  cells.  A cell is `missing` (pandas `NaN`), a string, or a number (numbers
  appear in the derived `age_clean` column).
* Python/numpy floating point arithmetic is modelled by exact rational
  arithmetic; Python's `round` (round-half-to-even, "banker's rounding") is
  modelled exactly on rationals by `rhe`/`round_py`; the float literals
  `0.05`, `0.2`, `0.4` are modelled by the rationals they denote.
* `pandas.Series.std()` (sample standard deviation, `ddof=1`) yields `NaN`
  on a single element; the possibly-NaN float is modelled by `FloatVal`.
-/

/-- Python strings, modelled as lists of characters. -/
abbrev PyStr := List Char

/-- `str.lower()`: ASCII lower-casing of every character (`Char.toLower`
maps `A`-`Z` to `a`-`z` and fixes everything else, which is Python's
behaviour on the ASCII data relevant here). -/
def py_lower (s : PyStr) : PyStr := s.map Char.toLower

/-- Whitespace characters removed by `str.strip()`. -/
def is_py_space (c : Char) : Bool :=
  c = ' ' || c = '\t' || c = '\n' || c = '\x0d' || c = '\x0b' || c = '\x0c'

/-- `str.strip()`: drop trailing whitespace, then leading whitespace
(the two ends are independent, so the order is immaterial). -/
def py_strip (s : PyStr) : PyStr :=
  ((s.reverse.dropWhile is_py_space).reverse).dropWhile is_py_space

/-- The fixed substitution table applied to a lowered, stripped gender
value (the `normalized_gender.replace({...})` call in `upload_file`). -/
def gender_replace (s : PyStr) : PyStr :=
  if s = "1".toList then "male".toList
  else if s = "0".toList then "female".toList
  else if s = "m".toList then "male".toList
  else if s = "f".toList then "female".toList
  else if s = "male.".toList then "male".toList
  else if s = "female.".toList then "female".toList
  else if s = "m.".toList then "male".toList
  else if s = "f.".toList then "female".toList
  else s

/-- Full normalization of one gender cell value (already stringified):
`.str.lower().str.strip()` followed by the substitution table. -/
def normalize_gender (s : PyStr) : PyStr := gender_replace (py_strip (py_lower s))

/-- Round-half-to-even of a rational to an integer: the exact behaviour of
Python's `round` on a float value that is exactly representable. -/
def rhe (x : ℚ) : ℤ :=
  if x - ⌊x⌋ < 1/2 then ⌊x⌋
  else if 1/2 < x - ⌊x⌋ then ⌊x⌋ + 1
  else if ⌊x⌋ % 2 = 0 then ⌊x⌋ else ⌊x⌋ + 1

/-- Python's `round(x, d)` for `d` decimal digits, on rationals. -/
def round_py (d : ℕ) (x : ℚ) : ℚ := (rhe (x * 10 ^ d) : ℚ) / 10 ^ d

/-- One dataframe cell: pandas `NaN` (from a missing/empty CSV field, or a
failed numeric coercion), a string, or a numeric value. -/
inductive Cell where
  | missing : Cell
  | str : PyStr → Cell
  | num : ℚ → Cell
deriving DecidableEq

/-- `astype(str)` on one cell: pandas stringifies `NaN` to the literal
string `"nan"`.  (Numeric cells are shown via `Rat`'s printer; no claim
depends on the exact float rendering.) -/
def astype_str (c : Cell) : PyStr :=
  match c with
  | .missing => "nan".toList
  | .str s => s
  | .num q => (toString q).toList

/-- A dataframe: ordered column names and rows of cells.  Invariant (the
spec's data model): every row has one cell per column. -/
structure Dataset where
  columns : List PyStr
  rows : List (List Cell)
deriving DecidableEq

/-- The data-model invariant: rows are rectangular. -/
def Dataset.WF (df : Dataset) : Prop :=
  ∀ r ∈ df.rows, r.length = df.columns.length

instance (df : Dataset) : Decidable df.WF := by
  unfold Dataset.WF; infer_instance

/-- `df[c]`: the column of cells named `c` (first exact-name match). -/
def getCol (df : Dataset) (c : PyStr) : List Cell :=
  match df.columns.findIdx? (· == c) with
  | none => []
  | some i => df.rows.map (fun r => r.getD i Cell.missing)

/-- `df[c] = vals`: overwrite the column if the name exists, else append a
new column on the right (pandas column assignment). -/
def setCol (df : Dataset) (c : PyStr) (vals : List Cell) : Dataset :=
  match df.columns.findIdx? (· == c) with
  | some i => { columns := df.columns, rows := df.rows.zipWith (fun r v => r.set i v) vals }
  | none => { columns := df.columns ++ [c], rows := df.rows.zipWith (fun r v => r ++ [v]) vals }

/-- The dict comprehension `{col.lower(): col for col in df.columns}`
looked up at key `k`: the last column whose lowering is `k` wins, as in a
Python dict built left to right. -/
def lookup_normalized (columns : List PyStr) (k : PyStr) : Option PyStr :=
  (columns.filter (fun c => py_lower c == k)).getLast?

/-- The column-resolution loop shared by `upload_file` and
`analyze_age_distribution`: first alias (in priority order) present
case-insensitively among the columns. -/
def resolveColumn (columns : List PyStr) (aliases : List PyStr) : Option PyStr :=
  aliases.findSome? (fun a => lookup_normalized columns a)

/-- `possible_gender_columns` from `upload_file`. -/
def possible_gender_columns : List PyStr :=
  ["gender".toList, "sex".toList, "gndr".toList, "g".toList, "s".toList]

/-- `possible_age_columns` from `analyze_age_distribution`. -/
def possible_age_columns : List PyStr :=
  ["age".toList, "years".toList, "patient_age".toList, "subject_age".toList, "pat_age".toList]

/-- `pandas.unique` order-preserving deduplication (first occurrence kept). -/
def pyUnique (l : List PyStr) : List PyStr :=
  l.foldl (fun acc x => if x ∈ acc then acc else acc ++ [x]) []

/-- All characters are decimal digits. -/
def all_digits (l : List Char) : Bool := l.all (fun c => c.isDigit)

/-- Value of a (non-empty) digit string. -/
def digits_val (l : List Char) : ℕ :=
  l.foldl (fun n c => 10 * n + (c.toNat - 48)) 0

/-- Unsigned decimal literal accepted by `pd.to_numeric`: digits with an
optional single decimal point, at least one digit overall. -/
def parse_unsigned (t : PyStr) : Option ℚ :=
  let a := t.takeWhile (fun c => c ≠ '.')
  match t.drop a.length with
  | [] => if a ≠ [] ∧ all_digits a then some (digits_val a) else none
  | _ :: frac =>
    if (a ≠ [] ∨ frac ≠ []) ∧ all_digits a ∧ all_digits frac then
      some ((digits_val a : ℚ) + (digits_val frac : ℚ) / 10 ^ frac.length)
    else none

/-- `pd.to_numeric(cell, errors='coerce')`: numbers pass through, strings
are parsed as (optionally signed) decimal literals, anything else (and a
missing cell) coerces to `NaN`, i.e. `none`. -/
def parse_num (c : Cell) : Option ℚ :=
  match c with
  | .missing => none
  | .num q => some q
  | .str s =>
    match py_strip s with
    | '-' :: rest => (parse_unsigned rest).map (fun q => -q)
    | '+' :: rest => parse_unsigned rest
    | t => parse_unsigned t

/-- The valid numeric ages of a column: numeric coercion followed by
`dropna` (rows whose coercion failed are removed). -/
def valid_ages (df : Dataset) (col : PyStr) : List ℚ :=
  (getCol df col).filterMap parse_num

/-- A float expression that may be `NaN`: `pandas.Series.std()` with the
default `ddof=1` is `NaN` on fewer than two values, and `round(nan, 1)`
is again `NaN`. -/
inductive FloatVal where
  | nan : FloatVal
  | val : ℚ → FloatVal
deriving DecidableEq

/-- Python's `int()` on a float: truncation toward zero. -/
def py_int (q : ℚ) : ℤ := if 0 ≤ q then ⌊q⌋ else ⌈q⌉

/-- pandas median: middle element of the sorted values, or the mean of the
two middle elements for an even count. -/
def median_val (l : List ℚ) : ℚ :=
  let s := l.insertionSort (· ≤ ·)
  if l.length % 2 = 1 then s.getD (l.length / 2) 0
  else (s.getD (l.length / 2 - 1) 0 + s.getD (l.length / 2) 0) / 2

/-- Sample variance (`ddof=1`), defined for two or more values. -/
def sample_var (l : List ℚ) : ℚ :=
  (l.map (fun x => (x - l.sum / l.length) ^ 2)).sum / ((l.length : ℚ) - 1)

/-- Binary search for the integer square root, on a structural fuel
argument: with the invariant `lo^2 ≤ n < hi^2` it returns `⌊√n⌋` once the
bracket closes.  (Structural recursion, so it evaluates inside the kernel,
unlike `Nat.sqrt`, whose well-founded recursion does not reduce.) -/
def isqrt_aux : ℕ → ℕ → ℕ → ℕ → ℕ
  | 0, _, lo, _ => lo
  | fuel + 1, n, lo, hi =>
    if hi ≤ lo + 1 then lo
    else
      let mid := (lo + hi) / 2
      if mid * mid ≤ n then isqrt_aux fuel n mid hi else isqrt_aux fuel n lo mid

/-- `⌊√n⌋`. -/
def isqrt (n : ℕ) : ℕ := isqrt_aux (n + 2) n 0 (n + 1)

/-- Round-half-to-even of `√x` (`x ≥ 0`) to an integer, computed exactly:
`s` is `⌊√x⌋` (note `⌊√(a/b)⌋ = ⌊√(ab)/b⌋`), and the half-way comparison
`√x ≶ s + 1/2` is decided by comparing `4x` with `(2s+1)^2`. -/
def rhe_sqrt (x : ℚ) : ℤ :=
  let s : ℕ := isqrt (x.num.toNat * x.den) / x.den
  if 4 * x < ((2 * s + 1 : ℕ) : ℚ) ^ 2 then s
  else if ((2 * s + 1 : ℕ) : ℚ) ^ 2 < 4 * x then s + 1
  else if s % 2 = 0 then s else s + 1

/-- `round(math-sqrt x, 1)` in exact arithmetic. -/
def sqrt_round1 (x : ℚ) : ℚ := (rhe_sqrt (100 * x) : ℚ) / 10

/-- The five `pd.cut` bin edges `[0, 18, 35, 50, 65, 120]`. -/
def bins : List ℚ := [0, 18, 35, 50, 65, 120]

/-- The five age-band labels. -/
def age_labels : List PyStr :=
  ["Under 18".toList, "18-34".toList, "35-49".toList, "50-64".toList, "65+".toList]

/-- `pd.cut(age, bins, right=False)`: the index of the half-open band
`[edge_i, edge_(i+1))` containing the age, or `none` (pandas `NaN`) for an
age outside `[0, 120)`. -/
def age_band (q : ℚ) : Option (Fin 5) :=
  if q < 0 then none
  else if q < 18 then some 0
  else if q < 35 then some 1
  else if q < 50 then some 2
  else if q < 65 then some 3
  else if q < 120 then some 4
  else none

/-- Number of valid ages falling in band `i` (the `value_counts().get(label, 0)`
of the cut column). -/
def band_count (l : List ℚ) (i : Fin 5) : ℕ :=
  (l.filter (fun q => age_band q == some i)).length

/-- The `stats` dict built by `analyze_age_distribution`. -/
structure AgeReport where
  used_column : PyStr
  mean_age : ℚ
  median_age : ℚ
  min_age : ℤ
  max_age : ℤ
  std_dev : FloatVal
  total_valid : ℕ
  age_groups : List (PyStr × ℕ × ℚ)
deriving DecidableEq

/-- The `stats` record assembled by `analyze_age_distribution` once a
non-empty valid-age series exists: summary statistics over the valid ages
and the per-band group counts/percentages (built label by label, so every
band appears even with a zero count). -/
def age_stats (df : Dataset) (age_col : PyStr) : AgeReport :=
  { used_column := age_col,
    mean_age := round_py 1 ((valid_ages df age_col).sum / ((valid_ages df age_col).length : ℚ)),
    median_age := round_py 1 (median_val (valid_ages df age_col)),
    min_age := py_int (((valid_ages df age_col).min?).getD 0),
    max_age := py_int (((valid_ages df age_col).max?).getD 0),
    std_dev := if (valid_ages df age_col).length < 2 then FloatVal.nan
               else FloatVal.val (sqrt_round1 (sample_var (valid_ages df age_col))),
    total_valid := (valid_ages df age_col).length,
    age_groups := (List.finRange 5).map (fun i : Fin 5 =>
      (age_labels.getD i [], band_count (valid_ages df age_col) i,
       round_py 1 ((band_count (valid_ages df age_col) i : ℚ) /
         ((valid_ages df age_col).length : ℚ) * 100))) }

/-- `analyze_age_distribution(df)`.  The function's one side effect on its
argument — the `df['age_clean'] = pd.to_numeric(...)` column assignment,
which happens before the emptiness check — is made explicit by returning
the post-state of `df` alongside the optional report.  (`df_age` is the
`dropna` copy; the `age_group` assignment touches only that copy.) -/
def analyze_age_distribution (df : Dataset) : Dataset × Option AgeReport :=
  match resolveColumn df.columns possible_age_columns with
  | none => (df, none)
  | some age_col =>
    let df2 := setCol df "age_clean".toList
      (((getCol df age_col).map parse_num).map (fun o => o.elim Cell.missing Cell.num))
    if (valid_ages df age_col).length = 0 then (df2, none)
    else (df2, some (age_stats df age_col))

/-- The gender-analysis fields of the `result` dict built by `upload_file`,
plus the optional `age_analysis` section. -/
structure AnalysisReport where
  used_column : PyStr
  male : ℕ
  female : ℕ
  total : ℕ
  male_percent : ℚ
  female_percent : ℚ
  bias_score : ℚ
  bias_label : PyStr
  raw_values : List PyStr
  normalized_values : List PyStr
  age_analysis : Option AgeReport
deriving DecidableEq

/-- The series `df[gender_col].astype(str).str.lower().str.strip().replace({...})`. -/
def normalized_gender (df : Dataset) (col : PyStr) : List PyStr :=
  (getCol df col).map (fun c => normalize_gender (astype_str c))

/-- `num_male = normalized_gender.eq("male").sum()`. -/
def num_male (df : Dataset) (col : PyStr) : ℕ :=
  (normalized_gender df col).count "male".toList

/-- `num_female = normalized_gender.eq("female").sum()`. -/
def num_female (df : Dataset) (col : PyStr) : ℕ :=
  (normalized_gender df col).count "female".toList

/-- `total = num_male + num_female`. -/
def total_count (df : Dataset) (col : PyStr) : ℕ :=
  num_male df col + num_female df col

/-- `male_percent` before rounding. -/
def male_percent_raw (df : Dataset) (col : PyStr) : ℚ :=
  if 0 < total_count df col
  then (num_male df col : ℚ) / (total_count df col : ℚ) * 100 else 0

/-- `female_percent` before rounding. -/
def female_percent_raw (df : Dataset) (col : PyStr) : ℚ :=
  if 0 < total_count df col
  then (num_female df col : ℚ) / (total_count df col : ℚ) * 100 else 0

/-- `bias_score = abs(num_male - num_female) / total` before rounding. -/
def bias_score_raw (df : Dataset) (col : PyStr) : ℚ :=
  if 0 < total_count df col
  then |(num_male df col : ℚ) - (num_female df col : ℚ)| / (total_count df col : ℚ)
  else 0

/-- The `bias_label` if-chain of `upload_file`, applied (as in the source)
to the un-rounded `bias_score`; the float literals `0.05`, `0.2`, `0.4`
are modelled by the rationals they denote. -/
def bias_label_val (df : Dataset) (col : PyStr) : PyStr :=
  if bias_score_raw df col < 1/20 then "Balanced".toList
  else if bias_score_raw df col < 1/5 then "Mildly Imbalanced".toList
  else if bias_score_raw df col < 2/5 then "Significantly Imbalanced".toList
  else "Highly Imbalanced".toList

/-- The error payload of the `except` handler when no gender column
resolves: the `ValueError` message, naming the accepted aliases. -/
def schema_error_msg : PyStr :=
  "Missing a recognized gender column. Expected one of: gender, sex, gndr, g, s".toList

/-- Substring test (used to state that the error message names each alias). -/
def occurs_in (hay needle : PyStr) : Bool :=
  match hay with
  | [] => needle.isEmpty
  | _ :: t => needle.isPrefixOf hay || occurs_in t needle

/-- The analysis pipeline of the `/api/upload` endpoint on an
already-decoded dataframe: resolve the gender column (a failed resolution
raises `ValueError`, which the surrounding catch-all turns into an error
payload — no partial report), normalize and count gender values, compute
percentages, bias score and label, and attach the optional age section
(`if age_analysis:` — the stats dict is non-empty, hence truthy, exactly
when a report was produced). -/
def upload_file (df : Dataset) : Except PyStr AnalysisReport :=
  match resolveColumn df.columns possible_gender_columns with
  | none => .error schema_error_msg
  | some gender_col =>
    .ok {
      used_column := gender_col,
      male := num_male df gender_col,
      female := num_female df gender_col,
      total := total_count df gender_col,
      male_percent := round_py 2 (male_percent_raw df gender_col),
      female_percent := round_py 2 (female_percent_raw df gender_col),
      bias_score := round_py 2 (bias_score_raw df gender_col),
      bias_label := bias_label_val df gender_col,
      raw_values := pyUnique ((getCol df gender_col).map astype_str),
      normalized_values := pyUnique (normalized_gender df gender_col),
      age_analysis := (analyze_age_distribution df).2 }

/- `Rat.mul`, `Rat.inv`, `Rat.add` and `Rat.sub` are `@[irreducible]` in
Batteries, which blocks evaluation of concrete rational arithmetic inside
`decide`/`rfl` proofs; restore the default reducibility locally for this
development. -/
section Analysis

attribute [local semireducible] Rat.mul Rat.inv Rat.add Rat.sub

/-- `rhe` of an integer is that integer. -/
lemma rhe_intCast (n : ℤ) : rhe (n : ℚ) = n := by
  unfold rhe
  rw [Int.floor_intCast]
  norm_num

/-- For `x` with a nonzero fractional part, the ceiling is the floor plus one. -/
lemma ceil_eq_floor_add_one {x : ℚ} (h : (⌊x⌋ : ℚ) < x) : ⌈x⌉ = ⌊x⌋ + 1 := by
  apply le_antisymm
  · exact Int.ceil_le.mpr (by push_cast; linarith [Int.lt_floor_add_one x])
  · have h1 : (⌊x⌋ : ℚ) < (⌈x⌉ : ℚ) := lt_of_lt_of_le h (Int.le_ceil x)
    exact_mod_cast Int.lt_iff_add_one_le.mp (by exact_mod_cast h1)

/-- Key rounding identity: round-half-even applied to `x` and to `N - x`
(for an even integer `N`) sums to `N`; in the tie case exactly one of the
two floors is even. -/
lemma rhe_compl (N : ℤ) (hN : N % 2 = 0) (x : ℚ) : rhe x + rhe ((N : ℚ) - x) = N := by
  by_cases h0 : ∃ n : ℤ, x = (n : ℚ)
  · obtain ⟨n, rfl⟩ := h0
    have h2 : (N : ℚ) - (n : ℚ) = ((N - n : ℤ) : ℚ) := by push_cast; ring
    rw [rhe_intCast, h2, rhe_intCast]
    omega
  · have hne : x ≠ ((⌊x⌋ : ℤ) : ℚ) := fun hx => h0 ⟨⌊x⌋, hx⟩
    have hlt : ((⌊x⌋ : ℤ) : ℚ) < x := lt_of_le_of_ne (Int.floor_le x) (Ne.symm hne)
    have hup : x < ((⌊x⌋ : ℤ) : ℚ) + 1 := Int.lt_floor_add_one x
    have hfl2 : ⌊(N : ℚ) - x⌋ = N - ⌊x⌋ - 1 := by
      rw [sub_eq_add_neg, Int.floor_int_add, Int.floor_neg, ceil_eq_floor_add_one hlt]
      ring
    unfold rhe
    rw [hfl2]
    have hc : ((N - ⌊x⌋ - 1 : ℤ) : ℚ) = (N : ℚ) - (⌊x⌋ : ℚ) - 1 := by push_cast; ring
    rcases lt_trichotomy (x - (⌊x⌋ : ℚ)) (1/2) with hlo | heq | hhi
    · rw [if_pos hlo,
        if_neg (show ¬((N : ℚ) - x - ((N - ⌊x⌋ - 1 : ℤ) : ℚ) < 1/2) by rw [hc]; linarith),
        if_pos (show (1:ℚ)/2 < (N : ℚ) - x - ((N - ⌊x⌋ - 1 : ℤ) : ℚ) by rw [hc]; linarith)]
      omega
    · rw [if_neg (show ¬(x - ((⌊x⌋ : ℤ) : ℚ) < 1/2) by linarith),
        if_neg (show ¬((1:ℚ)/2 < x - ((⌊x⌋ : ℤ) : ℚ)) by linarith),
        if_neg (show ¬((N : ℚ) - x - ((N - ⌊x⌋ - 1 : ℤ) : ℚ) < 1/2) by rw [hc]; linarith),
        if_neg (show ¬((1:ℚ)/2 < (N : ℚ) - x - ((N - ⌊x⌋ - 1 : ℤ) : ℚ)) by rw [hc]; linarith)]
      by_cases hpar : ⌊x⌋ % 2 = 0
      · rw [if_pos hpar, if_neg (show ¬((N - ⌊x⌋ - 1) % 2 = 0) by omega)]
        omega
      · rw [if_neg hpar, if_pos (show (N - ⌊x⌋ - 1) % 2 = 0 by omega)]
        omega
    · rw [if_neg (show ¬(x - ((⌊x⌋ : ℤ) : ℚ) < 1/2) by linarith),
        if_pos (show (1:ℚ)/2 < x - ((⌊x⌋ : ℤ) : ℚ) by linarith),
        if_pos (show (N : ℚ) - x - ((N - ⌊x⌋ - 1 : ℤ) : ℚ) < 1/2 by rw [hc]; linarith)]
      omega

/-- `rhe` is bounded below by any integer lower bound of its argument. -/
lemma rhe_ge (a : ℤ) (x : ℚ) (h : (a : ℚ) ≤ x) : a ≤ rhe x := by
  have hf : a ≤ ⌊x⌋ := Int.le_floor.mpr h
  unfold rhe
  split_ifs <;> omega

/-- `rhe` is bounded above by any integer upper bound of its argument. -/
lemma rhe_le (b : ℤ) (x : ℚ) (h : x ≤ (b : ℚ)) : rhe x ≤ b := by
  by_cases h0 : x = ((⌊x⌋ : ℤ) : ℚ)
  · have hb : ((⌊x⌋ : ℤ) : ℚ) ≤ (b : ℚ) := by rw [← h0]; exact h
    have hb2 : ⌊x⌋ ≤ b := by exact_mod_cast hb
    have hfr : x - ((⌊x⌋ : ℤ) : ℚ) < 1/2 := by
      nth_rewrite 1 [h0]
      norm_num
    unfold rhe
    rw [if_pos hfr]
    exact hb2
  · have hlt : ((⌊x⌋ : ℤ) : ℚ) < x := lt_of_le_of_ne (Int.floor_le x) (fun hx => h0 hx.symm)
    have hcb : ⌊x⌋ + 1 ≤ b := ceil_eq_floor_add_one hlt ▸ Int.ceil_le.mpr h
    unfold rhe
    split_ifs <;> omega

/-- The two rounded percentages sum to exactly `100` whenever the total is
positive: the un-rounded percentages sum to `100`, and half-even rounding
of the scaled values `y` and `10000 - y` is exactly complementary. -/
lemma round_py_percent_add (m f : ℕ) (h : 0 < m + f) :
    round_py 2 ((m : ℚ) / ((m + f : ℕ) : ℚ) * 100) +
      round_py 2 ((f : ℚ) / ((m + f : ℕ) : ℚ) * 100) = 100 := by
  have ht : ((m : ℚ) + (f : ℚ)) ≠ 0 := by
    have : (0 : ℚ) < (m : ℚ) + (f : ℚ) := by exact_mod_cast h
    linarith
  have hcast : ((m + f : ℕ) : ℚ) = (m : ℚ) + (f : ℚ) := by push_cast; ring
  have hq : (f : ℚ) / ((m + f : ℕ) : ℚ) * 100 * 10 ^ 2 =
      ((10000 : ℤ) : ℚ) - (m : ℚ) / ((m + f : ℕ) : ℚ) * 100 * 10 ^ 2 := by
    rw [hcast]
    field_simp
    ring
  unfold round_py
  rw [hq, div_add_div_same, ← Int.cast_add, rhe_compl 10000 (by norm_num)]
  norm_num

/-- Inversion of a successful `upload_file` run: the gender column resolved
and every report field is the corresponding computation on the input. -/
lemma upload_file_eq_ok {df : Dataset} {r : AnalysisReport} (h : upload_file df = .ok r) :
    ∃ col, resolveColumn df.columns possible_gender_columns = some col ∧
      r.used_column = col ∧
      r.male = num_male df col ∧
      r.female = num_female df col ∧
      r.total = total_count df col ∧
      r.male_percent = round_py 2 (male_percent_raw df col) ∧
      r.female_percent = round_py 2 (female_percent_raw df col) ∧
      r.bias_score = round_py 2 (bias_score_raw df col) ∧
      r.bias_label = bias_label_val df col ∧
      r.raw_values = pyUnique ((getCol df col).map astype_str) ∧
      r.normalized_values = pyUnique (normalized_gender df col) ∧
      r.age_analysis = (analyze_age_distribution df).2 := by
  unfold upload_file at h
  cases hres : resolveColumn df.columns possible_gender_columns with
  | none => rw [hres] at h; cases h
  | some col =>
    rw [hres] at h
    injection h with h
    subst h
    exact ⟨col, rfl, rfl, rfl, rfl, rfl, rfl, rfl, rfl, rfl, rfl, rfl, rfl⟩

/-- `round(0, d) = 0`. -/
lemma round_py_zero (d : ℕ) : round_py d 0 = 0 := by
  unfold round_py
  rw [show ((0 : ℚ) * 10 ^ d) = ((0 : ℤ) : ℚ) by norm_num, rhe_intCast]
  norm_num

/-- Claim C1: for every dataset whose gender column resolves, the reported
`male_percent` and `female_percent` (each `round(count / total * 100, 2)`)
sum to exactly `100` when `total > 0`, and are both `0` when `total == 0`. -/
theorem claim_C1 (df : Dataset) (r : AnalysisReport) (h : upload_file df = .ok r) :
    (0 < r.total → r.male_percent + r.female_percent = 100) ∧
    (r.total = 0 → r.male_percent = 0 ∧ r.female_percent = 0) := by
  obtain ⟨col, hres, _, hm, hf, ht, hmp, hfp, _⟩ := upload_file_eq_ok h
  constructor
  · intro hpos
    rw [ht] at hpos
    rw [hmp, hfp]
    unfold male_percent_raw female_percent_raw
    rw [if_pos hpos, if_pos hpos]
    unfold total_count at hpos ⊢
    exact round_py_percent_add (num_male df col) (num_female df col) hpos
  · intro h0
    rw [ht] at h0
    unfold total_count at h0
    rw [hmp, hfp]
    unfold male_percent_raw female_percent_raw total_count
    rw [if_neg (by omega), if_neg (by omega), round_py_zero]
    exact ⟨rfl, rfl⟩

/-- A two-row dataset (one `m`, one `f`) for exercising Claim C1. -/
def c1ds : Dataset := ⟨["gender".toList], [[Cell.str "m".toList], [Cell.str "f".toList]]⟩

/-- The report `upload_file` produces on `c1ds`. -/
def c1rep : AnalysisReport :=
  { used_column := "gender".toList, male := 1, female := 1, total := 2,
    male_percent := 50, female_percent := 50, bias_score := 0,
    bias_label := "Balanced".toList,
    raw_values := ["m".toList, "f".toList],
    normalized_values := ["male".toList, "female".toList],
    age_analysis := none }

/-- Witness for Claim C1 at a concrete input: the hypotheses hold and the
percentages sum to `100`. -/
theorem claim_C1_witness : 0 < c1rep.total ∧ c1rep.male_percent + c1rep.female_percent = 100 :=
  ⟨by decide, (claim_C1 c1ds c1rep (by rfl)).1 (by decide)⟩

/-- Claim C5: when no gender alias matches any column (case-insensitively),
the analysis fails with the schema error naming the accepted aliases, and
no report is returned. -/
theorem claim_C5 (df : Dataset)
    (h : resolveColumn df.columns possible_gender_columns = none) :
    upload_file df = .error schema_error_msg ∧
    ∀ a ∈ possible_gender_columns, occurs_in schema_error_msg a = true := by
  constructor
  · unfold upload_file
    rw [h]
  · decide

/-- The spec's Example 4 dataset: columns `name`, `score`. -/
def c5ds : Dataset := ⟨["name".toList, "score".toList], []⟩

/-- Witness for Claim C5: the Example 4 dataset has no gender alias and the
analysis indeed fails with the schema error. -/
theorem claim_C5_witness : upload_file c5ds = .error schema_error_msg :=
  (claim_C5 c5ds (by rfl)).1

/-- The bias-label thresholds exactly as the spec words them (left-inclusive
buckets of a score `s`); the claim applies them to the reported (rounded)
`bias_score`. -/
def spec_bias_bucket (s : ℚ) : PyStr :=
  if s < 1/20 then "Balanced".toList
  else if s < 1/5 then "Mildly Imbalanced".toList
  else if s < 2/5 then "Significantly Imbalanced".toList
  else "Highly Imbalanced".toList

/-- The claim's bias score formula, as a function of the two counts. -/
def raw_score (m f : ℕ) : ℚ :=
  if 0 < m + f then |(m : ℚ) - (f : ℚ)| / ((m + f : ℕ) : ℚ) else 0

/-- A 21-row dataset, 11 male and 10 female: the un-rounded score `1/21`
is below the `0.05` threshold but rounds up to `0.05`. -/
def c2ds : Dataset :=
  ⟨["sex".toList],
    List.replicate 11 [Cell.str "m".toList] ++ List.replicate 10 [Cell.str "f".toList]⟩

/-- Counterexample to Claim C2 as stated: on `c2ds` the reported
`bias_score` is `0.05`, whose spec bucket is `"Mildly Imbalanced"`, yet the
reported label is `"Balanced"` — the code buckets the score before
rounding. -/
theorem claim_C2_counterexample :
    (upload_file c2ds).toOption.map (fun r => (r.bias_score, r.bias_label)) =
      some (1/20, "Balanced".toList) ∧
    spec_bias_bucket (1/20) = "Mildly Imbalanced".toList ∧
    ("Balanced".toList : PyStr) ≠ "Mildly Imbalanced".toList := by
  refine ⟨by rfl, by rfl, by decide⟩

/-- Claim C2 (amended): the reported `bias_score` is the rounded raw score
`abs(male - female) / total` (or `0` when the total is `0`), lies in
`[0, 1]`, and the reported label is the threshold bucket of the
**un-rounded** raw score. -/
theorem claim_C2 (df : Dataset) (r : AnalysisReport) (h : upload_file df = .ok r) :
    r.bias_score = round_py 2 (raw_score r.male r.female) ∧
    0 ≤ r.bias_score ∧ r.bias_score ≤ 1 ∧
    r.bias_label = spec_bias_bucket (raw_score r.male r.female) := by
  obtain ⟨col, hres, _, hm, hf, ht, _, _, hbs, hbl, _⟩ := upload_file_eq_ok h
  have hraw : raw_score r.male r.female = bias_score_raw df col := by
    rw [hm, hf]
    unfold raw_score bias_score_raw total_count
    rfl
  have hr0 : 0 ≤ bias_score_raw df col := by
    unfold bias_score_raw
    split_ifs with hpos
    · positivity
    · exact le_refl 0
  have hr1 : bias_score_raw df col ≤ 1 := by
    unfold bias_score_raw
    split_ifs with hpos
    · have htq : (0 : ℚ) < ((total_count df col : ℕ) : ℚ) := by exact_mod_cast hpos
      rw [div_le_one htq]
      have h1 : ((num_male df col : ℕ) : ℚ) - ((num_female df col : ℕ) : ℚ) ≤
          ((total_count df col : ℕ) : ℚ) := by
        unfold total_count
        push_cast
        have : (0 : ℚ) ≤ ((num_female df col : ℕ) : ℚ) := by positivity
        linarith
      have h2 : -(((total_count df col : ℕ) : ℚ)) ≤
          ((num_male df col : ℕ) : ℚ) - ((num_female df col : ℕ) : ℚ) := by
        unfold total_count
        push_cast
        have : (0 : ℚ) ≤ ((num_male df col : ℕ) : ℚ) := by positivity
        linarith
      exact abs_le.mpr ⟨h2, h1⟩
    · norm_num
  have hge : (0 : ℚ) ≤ round_py 2 (bias_score_raw df col) := by
    unfold round_py
    have hz : ((0 : ℤ) : ℚ) ≤ bias_score_raw df col * 10 ^ 2 := by
      push_cast
      nlinarith
    have := rhe_ge 0 _ hz
    have hcast : (0 : ℚ) ≤ ((rhe (bias_score_raw df col * 10 ^ 2) : ℤ) : ℚ) := by
      exact_mod_cast this
    positivity
  have hle : round_py 2 (bias_score_raw df col) ≤ 1 := by
    unfold round_py
    have hz : bias_score_raw df col * 10 ^ 2 ≤ ((100 : ℤ) : ℚ) := by
      push_cast
      nlinarith
    have h100 := rhe_le 100 _ hz
    rw [div_le_one (by norm_num)]
    calc ((rhe (bias_score_raw df col * 10 ^ 2) : ℤ) : ℚ) ≤ ((100 : ℤ) : ℚ) := by
          exact_mod_cast h100
      _ = (10 : ℚ) ^ 2 := by norm_num
  refine ⟨by rw [hbs, hraw], ?_, ?_, ?_⟩
  · rw [hbs]
    exact hge
  · rw [hbs]
    exact hle
  · rw [hbl, hraw]
    rfl

/-- A one-row all-male dataset for the Claim C2 witness. -/
def c2wds : Dataset := ⟨["sex".toList], [[Cell.str "m".toList]]⟩

/-- The report `upload_file` produces on `c2wds`. -/
def c2wrep : AnalysisReport :=
  { used_column := "sex".toList, male := 1, female := 0, total := 1,
    male_percent := 100, female_percent := 0, bias_score := 1,
    bias_label := "Highly Imbalanced".toList,
    raw_values := ["m".toList], normalized_values := ["male".toList],
    age_analysis := none }

/-- Witness for (amended) Claim C2 at a concrete input. -/
theorem claim_C2_witness :
    c2wrep.bias_score = round_py 2 (raw_score c2wrep.male c2wrep.female) ∧
    0 ≤ c2wrep.bias_score ∧ c2wrep.bias_score ≤ 1 ∧
    c2wrep.bias_label = spec_bias_bucket (raw_score c2wrep.male c2wrep.female) :=
  claim_C2 c2wds c2wrep (by rfl)

/-- A successful dict lookup returns an original column whose lowering is
the key. -/
lemma lookup_normalized_some {columns : List PyStr} {k c : PyStr}
    (h : lookup_normalized columns k = some c) : c ∈ columns ∧ py_lower c = k := by
  unfold lookup_normalized at h
  have hmem := List.mem_of_getLast?_eq_some h
  rw [List.mem_filter] at hmem
  exact ⟨hmem.1, by have := hmem.2; simpa using this⟩

/-- A failed dict lookup means no column lowers to the key. -/
lemma lookup_normalized_none {columns : List PyStr} {k : PyStr} :
    lookup_normalized columns k = none ↔ ∀ col ∈ columns, py_lower col ≠ k := by
  unfold lookup_normalized
  rw [List.getLast?_eq_none_iff, List.filter_eq_nil_iff]
  constructor
  · intro h col hc
    have := h col hc
    simpa using this
  · intro h col hc
    simp only [beq_iff_eq]
    exact h col hc

/-- Claim C4: column resolution returns the original-cased name of a column
matching the first alias (in priority order) that matches any column
case-insensitively — no earlier alias matches any column — and reports the
field unresolved exactly when no alias matches any column.  (Resolution is
a pure function of its two arguments, so it is deterministic and has no
side effects by construction.) -/
theorem claim_C4 (columns aliases : List PyStr)
    (hlow : ∀ a ∈ aliases, py_lower a = a) :
    (∀ c, resolveColumn columns aliases = some c →
      c ∈ columns ∧
      ∃ pre a post, aliases = pre ++ a :: post ∧ py_lower c = py_lower a ∧
        ∀ a2 ∈ pre, ∀ col ∈ columns, py_lower col ≠ py_lower a2) ∧
    (resolveColumn columns aliases = none ↔
      ∀ a ∈ aliases, ∀ col ∈ columns, py_lower col ≠ py_lower a) := by
  induction aliases with
  | nil =>
    constructor
    · intro c hc
      simp [resolveColumn] at hc
    · simp [resolveColumn]
  | cons a as ih =>
    have hla : py_lower a = a := hlow a (by simp)
    have hlow2 : ∀ a2 ∈ as, py_lower a2 = a2 := fun a2 h2 => hlow a2 (by simp [h2])
    obtain ⟨ihs, ihn⟩ := ih hlow2
    unfold resolveColumn at ihs ihn ⊢
    rw [List.findSome?_cons]
    cases hl : lookup_normalized columns a with
    | some c0 =>
      obtain ⟨hc0, hlc0⟩ := lookup_normalized_some hl
      constructor
      · intro c hc
        injection hc with hc
        subst hc
        exact ⟨hc0, [], a, as, rfl, by rw [hlc0, hla], by simp⟩
      · constructor
        · intro h
          cases h
        · intro h
          exact absurd (by rw [hlc0, hla]) (h a (by simp) c0 hc0)
    | none =>
      have hano : ∀ col ∈ columns, py_lower col ≠ py_lower a := by
        rw [hla]
        exact lookup_normalized_none.mp hl
      constructor
      · intro c hc
        obtain ⟨hcmem, pre, a2, post, heq, hlc, hpre⟩ := ihs c hc
        exact ⟨hcmem, a :: pre, a2, post, by rw [heq]; rfl, hlc, by
          intro a3 h3 col hcol
          rcases List.mem_cons.mp h3 with h3 | h3
          · subst h3
            exact hano col hcol
          · exact hpre a3 h3 col hcol⟩
      · rw [ihn]
        constructor
        · intro h a2 h2 col hcol
          rcases List.mem_cons.mp h2 with h2 | h2
          · subst h2
            exact hano col hcol
          · exact h a2 h2 col hcol
        · intro h a2 h2 col hcol
          exact h a2 (by simp [h2]) col hcol

/-- A dataset column set containing both `Sex` and `Gender` for the Claim
C4 witness: the `gender` alias has priority. -/
def c4cols : List PyStr := ["Sex".toList, "Gender".toList]

/-- Witness for Claim C4 at a concrete input: on columns `Sex`, `Gender`
the gender aliases resolve, to a column lowering to `gender`. -/
theorem claim_C4_witness :
    resolveColumn c4cols possible_gender_columns = some "Gender".toList ∧
    ("Gender".toList ∈ c4cols ∧
      ∃ pre a post, possible_gender_columns = pre ++ a :: post ∧
        py_lower "Gender".toList = py_lower a ∧
        ∀ a2 ∈ pre, ∀ col ∈ c4cols, py_lower col ≠ py_lower a2) :=
  ⟨by rfl,
    (claim_C4 c4cols possible_gender_columns (by decide)).1 "Gender".toList (by rfl)⟩

/-- `Char.ofNat` of a valid codepoint recovers the codepoint. -/
lemma char_toNat_ofNat {n : ℕ} (h : n.isValidChar) : (Char.ofNat n).toNat = n := by
  simp [Char.ofNat, dif_pos h, Char.ofNatAux, Char.toNat, UInt32.toNat, BitVec.toNat_ofNatLt]

/-- ASCII lower-casing is idempotent on characters. -/
lemma toLower_idem (c : Char) : c.toLower.toLower = c.toLower := by
  unfold Char.toLower
  by_cases h : c.toNat ≥ 65 ∧ c.toNat ≤ 90
  · rw [if_pos h]
    have hv : (c.toNat + 32).isValidChar := Or.inl (by omega)
    rw [if_neg (by rw [char_toNat_ofNat hv]; omega)]
  · rw [if_neg h, if_neg h]

/-- The head surviving `dropWhile p` fails `p`. -/
lemma head?_dropWhile_false (p : α → Bool) (l : List α) {a : α}
    (h : (l.dropWhile p).head? = some a) : p a = false := by
  induction l with
  | nil => simp [List.dropWhile] at h
  | cons x xs ih =>
    rw [List.dropWhile_cons] at h
    by_cases hx : p x
    · rw [if_pos hx] at h
      exact ih h
    · rw [if_neg hx] at h
      simp only [List.head?_cons, Option.some.injEq] at h
      subst h
      simpa using hx

/-- `dropWhile p` fixes a list whose head (if any) fails `p`. -/
lemma dropWhile_eq_self (p : α → Bool) (l : List α)
    (h : ∀ a, l.head? = some a → p a = false) : l.dropWhile p = l := by
  cases l with
  | nil => rfl
  | cons x xs =>
    rw [List.dropWhile_cons, if_neg]
    simp [h x rfl]

/-- `dropWhile` only removes a prefix, so a last element is a last element
of the original list. -/
lemma getLast?_dropWhile (p : α → Bool) (l : List α) {a : α}
    (h : (l.dropWhile p).getLast? = some a) : l.getLast? = some a := by
  calc l.getLast? = (l.takeWhile p ++ l.dropWhile p).getLast? := by
        rw [List.takeWhile_append_dropWhile]
    _ = ((l.dropWhile p).getLast?).or ((l.takeWhile p).getLast?) := List.getLast?_append
    _ = some a := by rw [h]; rfl

/-- The first character of a stripped string is not whitespace. -/
lemma py_strip_head {s : PyStr} {a : Char} (h : (py_strip s).head? = some a) :
    is_py_space a = false := by
  unfold py_strip at h
  exact head?_dropWhile_false _ _ h

/-- The last character of a stripped string is not whitespace. -/
lemma py_strip_getLast {s : PyStr} {a : Char} (h : (py_strip s).getLast? = some a) :
    is_py_space a = false := by
  unfold py_strip at h
  have h2 := getLast?_dropWhile _ _ h
  rw [List.getLast?_reverse] at h2
  exact head?_dropWhile_false _ _ h2

/-- `py_strip` fixes a string whose two ends are not whitespace. -/
lemma py_strip_eq_self {l : PyStr}
    (hh : ∀ a, l.head? = some a → is_py_space a = false)
    (hl : ∀ a, l.getLast? = some a → is_py_space a = false) : py_strip l = l := by
  unfold py_strip
  have h1 : l.reverse.dropWhile is_py_space = l.reverse := by
    apply dropWhile_eq_self
    intro a ha
    rw [List.head?_reverse] at ha
    exact hl a ha
  rw [h1, List.reverse_reverse]
  exact dropWhile_eq_self _ _ hh

/-- Stripping is idempotent. -/
lemma py_strip_idem (s : PyStr) : py_strip (py_strip s) = py_strip s :=
  py_strip_eq_self (fun _ h => py_strip_head h) (fun _ h => py_strip_getLast h)

/-- Stripping only removes characters. -/
lemma mem_py_strip {c : Char} {l : PyStr} (h : c ∈ py_strip l) : c ∈ l := by
  unfold py_strip at h
  have h1 := (List.dropWhile_sublist _).subset h
  rw [List.mem_reverse] at h1
  have h2 := (List.dropWhile_sublist _).subset h1
  rw [List.mem_reverse] at h2
  exact h2

/-- Lower-casing is idempotent on strings. -/
lemma py_lower_idem (s : PyStr) : py_lower (py_lower s) = py_lower s := by
  unfold py_lower
  rw [List.map_map]
  apply List.map_congr_left
  intro a _
  exact toLower_idem a

/-- Lower-casing fixes the strip of an already-lowered string. -/
lemma py_lower_fixes_strip (s : PyStr) :
    py_lower (py_strip (py_lower s)) = py_strip (py_lower s) := by
  have hfix : ∀ c ∈ py_strip (py_lower s), Char.toLower c = c := by
    intro c hc
    have hc2 : c ∈ py_lower s := mem_py_strip hc
    unfold py_lower at hc2
    obtain ⟨d, _, rfl⟩ := List.mem_map.mp hc2
    exact toLower_idem d
  calc py_lower (py_strip (py_lower s))
      = List.map id (py_strip (py_lower s)) := List.map_congr_left hfix
    _ = py_strip (py_lower s) := List.map_id _

/-- Claim C9: gender normalization (stringify, lower, strip, then the fixed
substitution table) is idempotent: normalizing a normalized value yields
the same value. -/
theorem claim_C9 (s : PyStr) :
    normalize_gender (normalize_gender s) = normalize_gender s := by
  unfold normalize_gender
  set x := py_strip (py_lower s) with hx
  by_cases hk : x = "1".toList ∨ x = "0".toList ∨ x = "m".toList ∨ x = "f".toList ∨
      x = "male.".toList ∨ x = "female.".toList ∨ x = "m.".toList ∨ x = "f.".toList
  · rcases hk with h | h | h | h | h | h | h | h <;> rw [h] <;> decide
  · push_neg at hk
    obtain ⟨h1, h2, h3, h4, h5, h6, h7, h8⟩ := hk
    have hrep : gender_replace x = x := by
      unfold gender_replace
      rw [if_neg h1, if_neg h2, if_neg h3, if_neg h4, if_neg h5, if_neg h6, if_neg h7, if_neg h8]
    rw [hrep]
    have hlow : py_lower x = x := py_lower_fixes_strip s
    rw [hlow]
    have hstrip : py_strip x = x := by
      rw [hx]
      exact py_strip_idem (py_lower s)
    rw [hstrip, hrep]

/-- Membership in the `pyUnique` fold accumulator is preserved. -/
lemma pyUnique_foldl_mem (l : List PyStr) (acc : List PyStr) {x : PyStr}
    (h : x ∈ acc ∨ x ∈ l) :
    x ∈ l.foldl (fun acc x => if x ∈ acc then acc else acc ++ [x]) acc := by
  induction l generalizing acc with
  | nil => simpa using h
  | cons y ys ih =>
    rw [List.foldl_cons]
    apply ih
    rcases h with h | h
    · left
      split_ifs
      · exact h
      · exact List.mem_append_left _ h
    · rcases List.mem_cons.mp h with h | h
      · subst h
        left
        split_ifs with hy
        · exact hy
        · exact List.mem_append_right _ (by simp)
      · right
        exact h

/-- `pyUnique` keeps every element of the input. -/
lemma mem_pyUnique_of_mem {l : List PyStr} {x : PyStr} (h : x ∈ l) : x ∈ pyUnique l :=
  pyUnique_foldl_mem l [] (Or.inr h)

/-- Counting normalized `male`/`female` values over the raw cells equals
filtering on the non-missing cells that normalize to that value: missing
cells stringify to `"nan"`, which normalizes to itself. -/
lemma count_target_filter (cells : List Cell) (t : PyStr)
    (hnan : normalize_gender "nan".toList ≠ t) :
    (cells.map (fun c => normalize_gender (astype_str c))).count t =
      (cells.filter
        (fun c => decide (c ≠ Cell.missing ∧ normalize_gender (astype_str c) = t))).length := by
  induction cells with
  | nil => rfl
  | cons c cs ih =>
    rw [List.map_cons, List.count_cons, List.filter_cons, ih]
    cases c with
    | missing =>
      have hnan2 : normalize_gender ['n', 'a', 'n'] ≠ t := by simpa using hnan
      simp [astype_str, hnan2]
    | str s =>
      by_cases ht : normalize_gender (astype_str (Cell.str s)) = t
      · rw [if_pos (by simp [ht])]
        simp [ht]
      · rw [if_neg (by simp [ht])]
        simp [ht]
    | num q =>
      by_cases ht : normalize_gender (astype_str (Cell.num q)) = t
      · rw [if_pos (by simp [ht])]
        simp [ht]
      · rw [if_neg (by simp [ht])]
        simp [ht]

/-- Claim C10: a dataset whose resolved gender column has missing cells
does not fail; each missing cell stringifies to `"nan"`, which normalizes
to neither `male` nor `female` (so it is Unrecognized and contributes to
no count), and `"nan"` appears in the reported `normalized_values`. -/
theorem claim_C10 (df : Dataset) (col : PyStr)
    (hres : resolveColumn df.columns possible_gender_columns = some col)
    (hmiss : Cell.missing ∈ getCol df col) :
    ∃ r, upload_file df = .ok r ∧
      astype_str Cell.missing = "nan".toList ∧
      normalize_gender "nan".toList ≠ "male".toList ∧
      normalize_gender "nan".toList ≠ "female".toList ∧
      "nan".toList ∈ r.normalized_values ∧
      r.male = ((getCol df col).filter
        (fun c => decide (c ≠ Cell.missing ∧
          normalize_gender (astype_str c) = "male".toList))).length ∧
      r.female = ((getCol df col).filter
        (fun c => decide (c ≠ Cell.missing ∧
          normalize_gender (astype_str c) = "female".toList))).length ∧
      r.total = r.male + r.female := by
  have hok : upload_file df = .ok {
      used_column := col,
      male := num_male df col,
      female := num_female df col,
      total := total_count df col,
      male_percent := round_py 2 (male_percent_raw df col),
      female_percent := round_py 2 (female_percent_raw df col),
      bias_score := round_py 2 (bias_score_raw df col),
      bias_label := bias_label_val df col,
      raw_values := pyUnique ((getCol df col).map astype_str),
      normalized_values := pyUnique (normalized_gender df col),
      age_analysis := (analyze_age_distribution df).2 } := by
    unfold upload_file
    rw [hres]
  refine ⟨_, hok, rfl, by decide, by decide, ?_, ?_, ?_, rfl⟩
  · apply mem_pyUnique_of_mem
    unfold normalized_gender
    have := List.mem_map_of_mem (fun c => normalize_gender (astype_str c)) hmiss
    simpa using this
  · unfold num_male normalized_gender
    exact count_target_filter _ _ (by decide)
  · unfold num_female normalized_gender
    exact count_target_filter _ _ (by decide)

/-- A dataset with one missing gender cell and one `m` row. -/
def c10ds : Dataset := ⟨["gender".toList], [[Cell.missing], [Cell.str "m".toList]]⟩

/-- Witness for Claim C10 at a concrete input. -/
theorem claim_C10_witness :
    ∃ r, upload_file c10ds = .ok r ∧
      astype_str Cell.missing = "nan".toList ∧
      normalize_gender "nan".toList ≠ "male".toList ∧
      normalize_gender "nan".toList ≠ "female".toList ∧
      "nan".toList ∈ r.normalized_values ∧
      r.male = ((getCol c10ds "gender".toList).filter
        (fun c => decide (c ≠ Cell.missing ∧
          normalize_gender (astype_str c) = "male".toList))).length ∧
      r.female = ((getCol c10ds "gender".toList).filter
        (fun c => decide (c ≠ Cell.missing ∧
          normalize_gender (astype_str c) = "female".toList))).length ∧
      r.total = r.male + r.female :=
  claim_C10 c10ds "gender".toList (by rfl) (by decide)

/-- Claim C6: the age report is absent — not an error — exactly when the
age column does not resolve or no valid numeric ages remain, and the
assembled report carries the `age_analysis` section exactly as produced by
the age analyzer (`if age_analysis:` is truthy exactly on a produced
report, since the stats dict is never empty). -/
theorem claim_C6 (df : Dataset) :
    (resolveColumn df.columns possible_age_columns = none →
      (analyze_age_distribution df).2 = none) ∧
    (∀ col, resolveColumn df.columns possible_age_columns = some col →
      ((analyze_age_distribution df).2 = none ↔ valid_ages df col = [])) ∧
    (∀ r, upload_file df = .ok r → r.age_analysis = (analyze_age_distribution df).2) := by
  refine ⟨?_, ?_, ?_⟩
  · intro h
    unfold analyze_age_distribution
    rw [h]
  · intro col hcol
    unfold analyze_age_distribution
    rw [hcol]
    by_cases hv : (valid_ages df col).length = 0
    · simp only [if_pos hv]
      simp [List.length_eq_zero.mp hv]
    · simp only [if_neg hv]
      simp only [Option.some_ne_none]
      constructor
      · intro h
        cases h
      · intro h
        exact absurd (by rw [h]; rfl) hv
  · intro r hok
    obtain ⟨col, _, _, _, _, _, _, _, _, _, _, _, hage⟩ := upload_file_eq_ok hok
    exact hage

/-- A dataset with a gender and an age column, one valid row. -/
def c6ds : Dataset := ⟨["gender".toList, "age".toList], [[Cell.str "m".toList, Cell.str "30".toList]]⟩

/-- A dataset with no age column. -/
def c6nds : Dataset := ⟨["gender".toList], [[Cell.str "m".toList]]⟩

/-- Witness for Claim C6 at concrete inputs: absent without an age column;
present-iff-valid with one; and the assembled report carries exactly the
analyzer's section. -/
theorem claim_C6_witness :
    (analyze_age_distribution c6nds).2 = none ∧
    ((analyze_age_distribution c6ds).2 = none ↔ valid_ages c6ds "age".toList = []) ∧
    (upload_file c6ds).toOption.map (fun r => r.age_analysis) =
      some ((analyze_age_distribution c6ds).2) := by
  refine ⟨(claim_C6 c6nds).1 (by rfl), (claim_C6 c6ds).2.1 "age".toList (by rfl), ?_⟩
  cases hok : upload_file c6ds with
  | error e =>
    have hisok : (upload_file c6ds).isOk = true := by decide
    rw [hok] at hisok
    cases hisok
  | ok r =>
    have hsec := (claim_C6 c6ds).2.2 r hok
    show some r.age_analysis = some ((analyze_age_distribution c6ds).2)
    rw [hsec]

/-- A dataset with a single valid age. -/
def c7ds : Dataset := ⟨["age".toList], [[Cell.str "30".toList]]⟩

/-- Claim C7 (failing input): on a dataset with exactly one valid age an
age report IS produced, and its `std_dev` is `NaN` (pandas sample standard
deviation with `ddof=1` of a single value), not `0` or `None` as the claim
requires. -/
theorem claim_C7 :
    ((analyze_age_distribution c7ds).2).map (fun r => (r.total_valid, r.std_dev)) =
      some (1, FloatVal.nan) := by
  rfl

/-- Band 0 of `pd.cut(..., right=False)` is exactly `[0, 18)`. -/
lemma age_band_eq_zero_iff (q : ℚ) : age_band q = some 0 ↔ 0 ≤ q ∧ q < 18 := by
  unfold age_band
  constructor
  · intro h
    split_ifs at h with h1 h2 h3 h4 h5 h6 <;>
      first
        | exact Option.noConfusion h
        | exact absurd (Option.some.inj h) (by decide)
        | exact ⟨by linarith, by linarith⟩
  · rintro ⟨ha, hb⟩
    rw [if_neg (by linarith), if_pos hb]

/-- Band 1 is exactly `[18, 35)`: age 18 goes up, not into band 0. -/
lemma age_band_eq_one_iff (q : ℚ) : age_band q = some 1 ↔ 18 ≤ q ∧ q < 35 := by
  unfold age_band
  constructor
  · intro h
    split_ifs at h with h1 h2 h3 h4 h5 h6 <;>
      first
        | exact Option.noConfusion h
        | exact absurd (Option.some.inj h) (by decide)
        | exact ⟨by linarith, by linarith⟩
  · rintro ⟨ha, hb⟩
    rw [if_neg (by linarith), if_neg (by linarith), if_pos hb]

/-- Band 2 is exactly `[35, 50)`. -/
lemma age_band_eq_two_iff (q : ℚ) : age_band q = some 2 ↔ 35 ≤ q ∧ q < 50 := by
  unfold age_band
  constructor
  · intro h
    split_ifs at h with h1 h2 h3 h4 h5 h6 <;>
      first
        | exact Option.noConfusion h
        | exact absurd (Option.some.inj h) (by decide)
        | exact ⟨by linarith, by linarith⟩
  · rintro ⟨ha, hb⟩
    rw [if_neg (by linarith), if_neg (by linarith), if_neg (by linarith), if_pos hb]

/-- Band 3 is exactly `[50, 65)`. -/
lemma age_band_eq_three_iff (q : ℚ) : age_band q = some 3 ↔ 50 ≤ q ∧ q < 65 := by
  unfold age_band
  constructor
  · intro h
    split_ifs at h with h1 h2 h3 h4 h5 h6 <;>
      first
        | exact Option.noConfusion h
        | exact absurd (Option.some.inj h) (by decide)
        | exact ⟨by linarith, by linarith⟩
  · rintro ⟨ha, hb⟩
    rw [if_neg (by linarith), if_neg (by linarith), if_neg (by linarith),
      if_neg (by linarith), if_pos hb]

/-- Band 4 is exactly `[65, 120)`: ages at or above 120 fall in no band. -/
lemma age_band_eq_four_iff (q : ℚ) : age_band q = some 4 ↔ 65 ≤ q ∧ q < 120 := by
  unfold age_band
  constructor
  · intro h
    split_ifs at h with h1 h2 h3 h4 h5 h6 <;>
      first
        | exact Option.noConfusion h
        | exact absurd (Option.some.inj h) (by decide)
        | exact ⟨by linarith, by linarith⟩
  · rintro ⟨ha, hb⟩
    rw [if_neg (by linarith), if_neg (by linarith), if_neg (by linarith),
      if_neg (by linarith), if_neg (by linarith), if_pos hb]

/-- An age is binned (the cut is not `NaN`) exactly when it lies in `[0, 120)`. -/
lemma age_band_isSome_iff (q : ℚ) : (age_band q).isSome = true ↔ 0 ≤ q ∧ q < 120 := by
  unfold age_band
  split_ifs with h1 h2 h3 h4 h5 h6 <;> simp <;>
    first
      | exact ⟨by linarith, by linarith⟩
      | (intro ha; linarith)

/-- Boolean form of the in-range characterization. -/
lemma age_band_isSome_eq (q : ℚ) :
    (age_band q).isSome = decide (0 ≤ q ∧ q < 120) := by
  by_cases h : 0 ≤ q ∧ q < 120
  · rw [decide_eq_true h]
    exact (age_band_isSome_iff q).mpr h
  · rw [decide_eq_false h]
    exact Bool.eq_false_iff.mpr (fun hc => h ((age_band_isSome_iff q).mp hc))

/-- The per-band counts sum to the number of binned (in-range) ages: each
age contributes to exactly the band `pd.cut` assigns it, or to none. -/
lemma band_count_sum (l : List ℚ) :
    (∑ i : Fin 5, band_count l i) = (l.filter (fun q => (age_band q).isSome)).length := by
  induction l with
  | nil => simp [band_count]
  | cons q tl ih =>
    have hstep : ∀ i : Fin 5, band_count (q :: tl) i =
        (if age_band q = some i then 1 else 0) + band_count tl i := by
      intro i
      unfold band_count
      rw [List.filter_cons]
      by_cases hq : age_band q = some i
      · rw [if_pos (by simp [hq]), if_pos hq, List.length_cons]
        omega
      · rw [if_neg (by simp [hq]), if_neg hq]
        omega
    simp only [hstep]
    rw [Finset.sum_add_distrib, ih, List.filter_cons]
    cases hb : age_band q with
    | none => simp
    | some j =>
      have ho : (∑ x : Fin 5, if (some j : Option (Fin 5)) = some x then 1 else 0) = 1 := by
        simp
      rw [ho]
      simp only [Option.isSome_some, if_pos, List.length_cons]
      omega

/-- Unfolding of `analyze_age_distribution` once the age column has
resolved: the post-state dataframe carries the new `age_clean` column, and
the report is produced exactly when valid ages remain. -/
lemma analyze_eq_of_resolved {df : Dataset} {col : PyStr}
    (hres : resolveColumn df.columns possible_age_columns = some col) :
    analyze_age_distribution df =
      (setCol df "age_clean".toList
        (((getCol df col).map parse_num).map (fun o => o.elim Cell.missing Cell.num)),
       if (valid_ages df col).length = 0 then none else some (age_stats df col)) := by
  unfold analyze_age_distribution
  rw [hres]
  show (if (valid_ages df col).length = 0
      then (setCol df "age_clean".toList
        (((getCol df col).map parse_num).map (fun o => o.elim Cell.missing Cell.num)), none)
      else (setCol df "age_clean".toList
        (((getCol df col).map parse_num).map (fun o => o.elim Cell.missing Cell.num)),
        some (age_stats df col))) = _
  split_ifs <;> rfl

/-- Inversion of a produced age report: the age column resolved, the valid
series is non-empty, and the report is the stats record over the valid
ages. -/
lemma analyze_eq_some {df : Dataset} {r : AgeReport}
    (h : (analyze_age_distribution df).2 = some r) :
    ∃ col, resolveColumn df.columns possible_age_columns = some col ∧
      (valid_ages df col).length ≠ 0 ∧ r = age_stats df col := by
  cases hres : resolveColumn df.columns possible_age_columns with
  | none =>
    unfold analyze_age_distribution at h
    rw [hres] at h
    cases h
  | some col =>
    rw [analyze_eq_of_resolved hres] at h
    by_cases hv : (valid_ages df col).length = 0
    · rw [if_pos hv] at h
      cases h
    · rw [if_neg hv] at h
      exact ⟨col, rfl, hv, (Option.some.inj h).symm⟩

/-- Claim C3 (amended): when an age report is produced, the five bands are
exactly the claimed half-open intervals (so each valid age in `[0, 120)`
falls in exactly one band, boundary ages going to the band that starts
there); `total_valid` counts all valid ages; every band is reported, with
`count` the number of valid ages in the band and
`percent = round(count / total_valid * 100, 1)`; and the per-band counts
sum to the number of valid ages inside `[0, 120)` — ages outside that
range are counted in `total_valid` but fall in no band. -/
theorem claim_C3 (df : Dataset) (r : AgeReport)
    (h : (analyze_age_distribution df).2 = some r) :
    ∃ col, resolveColumn df.columns possible_age_columns = some col ∧
      (∀ q : ℚ, (0 ≤ q ∧ q < 120) → ∃ i : Fin 5, age_band q = some i) ∧
      (∀ q : ℚ,
        (age_band q = some 0 ↔ 0 ≤ q ∧ q < 18) ∧
        (age_band q = some 1 ↔ 18 ≤ q ∧ q < 35) ∧
        (age_band q = some 2 ↔ 35 ≤ q ∧ q < 50) ∧
        (age_band q = some 3 ↔ 50 ≤ q ∧ q < 65) ∧
        (age_band q = some 4 ↔ 65 ≤ q ∧ q < 120)) ∧
      r.total_valid = (valid_ages df col).length ∧
      r.age_groups = (List.finRange 5).map (fun i : Fin 5 =>
        (age_labels.getD i [], band_count (valid_ages df col) i,
         round_py 1 ((band_count (valid_ages df col) i : ℚ) /
           ((valid_ages df col).length : ℚ) * 100))) ∧
      (r.age_groups.map (fun g => g.2.1)).sum =
        ((valid_ages df col).filter (fun q => decide (0 ≤ q ∧ q < 120))).length := by
  obtain ⟨col, hres, hne, hrep⟩ := analyze_eq_some h
  subst hrep
  refine ⟨col, hres, ?_, fun q => ⟨age_band_eq_zero_iff q, age_band_eq_one_iff q,
    age_band_eq_two_iff q, age_band_eq_three_iff q, age_band_eq_four_iff q⟩, rfl, rfl, ?_⟩
  · intro q hq
    have hs := (age_band_isSome_iff q).mpr hq
    exact Option.isSome_iff_exists.mp hs
  · have hag : (age_stats df col).age_groups = (List.finRange 5).map (fun i : Fin 5 =>
        (age_labels.getD i [], band_count (valid_ages df col) i,
         round_py 1 ((band_count (valid_ages df col) i : ℚ) /
           ((valid_ages df col).length : ℚ) * 100))) := rfl
    rw [hag, List.map_map]
    have hmap : ((fun (g : PyStr × ℕ × ℚ) => g.2.1) ∘ (fun i : Fin 5 =>
        (age_labels.getD i [], band_count (valid_ages df col) i,
         round_py 1 ((band_count (valid_ages df col) i : ℚ) /
           ((valid_ages df col).length : ℚ) * 100)))) =
        (fun i : Fin 5 => band_count (valid_ages df col) i) := rfl
    rw [hmap, ← Fin.sum_univ_def, band_count_sum]
    congr 1
    apply List.filter_congr
    intro q _
    exact age_band_isSome_eq q

/-- A dataset with one valid age `150`, outside every band. -/
def c3ds : Dataset := ⟨["age".toList], [[Cell.str "150".toList]]⟩

/-- Counterexample to Claim C3 as stated: on `c3ds` an age report is
produced with `total_valid = 1`, but the band counts sum to `0`: the valid
age `150` is assigned to no band, so the counts do not sum to
`total_valid`. -/
theorem claim_C3_counterexample :
    ((analyze_age_distribution c3ds).2).map
      (fun r => ((r.age_groups.map (fun g => g.2.1)).sum, r.total_valid)) = some (0, 1) ∧
    (0 : ℕ) ≠ 1 := ⟨by rfl, by decide⟩

/-- The spec's Example 3 age dataset: ages 10, 18, 34, 65, 90. -/
def c3wds : Dataset :=
  ⟨["age".toList],
    [[Cell.str "10".toList], [Cell.str "18".toList], [Cell.str "34".toList],
     [Cell.str "65".toList], [Cell.str "90".toList]]⟩

/-- The age report `analyze_age_distribution` produces on `c3wds`. -/
def c3wrep : AgeReport :=
  { used_column := "age".toList,
    mean_age := 217/5, median_age := 34, min_age := 10, max_age := 90,
    std_dev := FloatVal.val (67/2), total_valid := 5,
    age_groups :=
      [("Under 18".toList, 1, 20), ("18-34".toList, 2, 40), ("35-49".toList, 0, 0),
       ("50-64".toList, 0, 0), ("65+".toList, 2, 40)] }

/-- Witness for (amended) Claim C3 at the spec's Example 3 input. -/
theorem claim_C3_witness :
    ∃ col, resolveColumn c3wds.columns possible_age_columns = some col ∧
      (∀ q : ℚ, (0 ≤ q ∧ q < 120) → ∃ i : Fin 5, age_band q = some i) ∧
      (∀ q : ℚ,
        (age_band q = some 0 ↔ 0 ≤ q ∧ q < 18) ∧
        (age_band q = some 1 ↔ 18 ≤ q ∧ q < 35) ∧
        (age_band q = some 2 ↔ 35 ≤ q ∧ q < 50) ∧
        (age_band q = some 3 ↔ 50 ≤ q ∧ q < 65) ∧
        (age_band q = some 4 ↔ 65 ≤ q ∧ q < 120)) ∧
      c3wrep.total_valid = (valid_ages c3wds col).length ∧
      c3wrep.age_groups = (List.finRange 5).map (fun i : Fin 5 =>
        (age_labels.getD i [], band_count (valid_ages c3wds col) i,
         round_py 1 ((band_count (valid_ages c3wds col) i : ℚ) /
           ((valid_ages c3wds col).length : ℚ) * 100))) ∧
      (c3wrep.age_groups.map (fun g => g.2.1)).sum =
        ((valid_ages c3wds col).filter (fun q => decide (0 ≤ q ∧ q < 120))).length :=
  claim_C3 c3wds c3wrep (by rfl)

/-- A resolved column is one of the dataset's columns. -/
lemma resolveColumn_mem {cols als : List PyStr} {c : PyStr}
    (h : resolveColumn cols als = some c) : c ∈ cols := by
  unfold resolveColumn at h
  obtain ⟨a, _, hl⟩ := List.exists_of_findSome?_eq_some h
  exact (lookup_normalized_some hl).1

/-- A present column name has a first index, within bounds. -/
lemma findIdx_of_mem {cols : List PyStr} {c : PyStr} (h : c ∈ cols) :
    ∃ i, cols.findIdx? (fun x => x == c) = some i ∧ i < cols.length := by
  have hany : cols.any (fun x => x == c) = true :=
    List.any_eq_true.mpr ⟨c, h, by simp⟩
  have hsome : (cols.findIdx? (fun x => x == c)).isSome = true := by
    rw [List.findIdx?_isSome]
    exact hany
  obtain ⟨i, hi⟩ := Option.isSome_iff_exists.mp hsome
  exact ⟨i, hi, (List.findIdx?_eq_some_iff_findIdx_eq.mp hi).1⟩

/-- Column lookup length: a present column has one cell per row. -/
lemma length_getCol_of_mem {df : Dataset} {c : PyStr} (h : c ∈ df.columns) :
    (getCol df c).length = df.rows.length := by
  obtain ⟨i, hfi, _⟩ := findIdx_of_mem h
  unfold getCol
  rw [hfi, List.length_map]

/-- A fresh column name is found nowhere among the columns. -/
lemma findIdx_fresh {df : Dataset} {k : PyStr} (hk : k ∉ df.columns) :
    df.columns.findIdx? (fun x => x == k) = none := by
  rw [List.findIdx?_eq_none_iff]
  intro x hx
  exact beq_eq_false_iff_ne.mpr (fun he => hk (he ▸ hx))

/-- Assigning a fresh column name appends it on the right: column list. -/
lemma setCol_fresh_columns {df : Dataset} {k : PyStr} (hk : k ∉ df.columns)
    (vals : List Cell) : (setCol df k vals).columns = df.columns ++ [k] := by
  unfold setCol
  rw [findIdx_fresh hk]

/-- Assigning a fresh column name appends one cell to every row. -/
lemma setCol_fresh_rows {df : Dataset} {k : PyStr} (hk : k ∉ df.columns)
    (vals : List Cell) :
    (setCol df k vals).rows = df.rows.zipWith (fun r v => r ++ [v]) vals := by
  unfold setCol
  rw [findIdx_fresh hk]

/-- Appending one value to every (long enough) row does not change the
cell read at an in-bounds index. -/
lemma map_getD_zipWith_append (rows : List (List Cell)) (vals : List Cell) (i : ℕ)
    (hlen : rows.length = vals.length) (hi : ∀ r ∈ rows, i < r.length) :
    (List.zipWith (fun r v => r ++ [v]) rows vals).map (fun r => r.getD i Cell.missing) =
      rows.map (fun r => r.getD i Cell.missing) := by
  induction rows generalizing vals with
  | nil => simp
  | cons r rs ih =>
    cases vals with
    | nil => simp at hlen
    | cons v vs =>
      rw [List.zipWith_cons_cons, List.map_cons, List.map_cons]
      congr 1
      · exact List.getD_append _ _ _ _ (hi r (by simp))
      · exact ih vs (by simpa using hlen) (fun r2 h2 => hi r2 (by simp [h2]))

/-- Claim C8 (amended): on a rectangular dataset with no column already
named `age_clean`, the pipeline modifies no cells and no existing columns
of its input and preserves the row count; its only frame effect is that
the age analyzer appends the derived `age_clean` column to the input
dataframe (the gender analysis reads the input without writing to it). -/
theorem claim_C8 (df : Dataset) (hwf : df.WF)
    (hnc : "age_clean".toList ∉ df.columns) :
    ((analyze_age_distribution df).1.columns = df.columns ∨
      (analyze_age_distribution df).1.columns = df.columns ++ ["age_clean".toList]) ∧
    (analyze_age_distribution df).1.rows.length = df.rows.length ∧
    (∀ c ∈ df.columns, getCol (analyze_age_distribution df).1 c = getCol df c) := by
  cases hres : resolveColumn df.columns possible_age_columns with
  | none =>
    have hid : analyze_age_distribution df = (df, none) := by
      unfold analyze_age_distribution
      rw [hres]
    rw [hid]
    exact ⟨Or.inl rfl, rfl, fun c _ => rfl⟩
  | some col =>
    have hcm : col ∈ df.columns := resolveColumn_mem hres
    have hD : (analyze_age_distribution df).1 = setCol df "age_clean".toList
        (((getCol df col).map parse_num).map (fun o => o.elim Cell.missing Cell.num)) := by
      rw [analyze_eq_of_resolved hres]
    have hvlen : (((getCol df col).map parse_num).map
        (fun o => o.elim Cell.missing Cell.num)).length = df.rows.length := by
      rw [List.length_map, List.length_map]
      exact length_getCol_of_mem hcm
    refine ⟨?_, ?_, ?_⟩
    · rw [hD, setCol_fresh_columns hnc]
      right
      rfl
    · rw [hD, setCol_fresh_rows hnc, List.length_zipWith, hvlen]
      omega
    · intro c hc
      obtain ⟨i, hfi, hib⟩ := findIdx_of_mem hc
      unfold getCol
      rw [hD, setCol_fresh_columns hnc, setCol_fresh_rows hnc, List.findIdx?_append, hfi,
        Option.or_some]
      exact map_getD_zipWith_append df.rows _ i hvlen.symm
        (fun r hr => (hwf r hr).symm ▸ hib)

/-- A one-column age dataset demonstrating the frame effect. -/
def c8ds : Dataset := ⟨["age".toList], [[Cell.str "30".toList]]⟩

/-- Counterexample to Claim C8 as stated: running the age analysis does
not leave the input dataframe unchanged — it gains an `age_clean`
column. -/
theorem claim_C8_counterexample : (analyze_age_distribution c8ds).1 ≠ c8ds := by
  decide

/-- Witness for (amended) Claim C8 at a concrete input. -/
theorem claim_C8_witness :
    ((analyze_age_distribution c8ds).1.columns = c8ds.columns ∨
      (analyze_age_distribution c8ds).1.columns = c8ds.columns ++ ["age_clean".toList]) ∧
    (analyze_age_distribution c8ds).1.rows.length = c8ds.rows.length ∧
    getCol (analyze_age_distribution c8ds).1 "age".toList = getCol c8ds "age".toList := by
  obtain ⟨h1, h2, h3⟩ := claim_C8 c8ds (by decide) (by decide)
  exact ⟨h1, h2, h3 "age".toList (by decide)⟩

end Analysis
